import Mathlib

/-!
# destiny2-db: the manifest database accessor (`db.go`)

A shallow embedding of `db.go`: the point lookup `Get`, the table scan `GetAll`,
the archive fetcher `download` and the open sequence `Open`, followed by the
properties established about them.

Conventions of the embedding.

* A Go `uint32` is a `Nat` below `2^32`; a Go `int32` is an `Int` in `[-2^31, 2^31)`.
* A Go return pair `(value, error)` is a Lean pair `(Option value, Option Error)`;
  `nil` is `none`.
* The relational engine, the JSON decoder, the network, the ZIP reader and the
  operating system are collaborators of `db.go`.  Each call that `db.go` checks with
  `if err != nil` is a field of `Env` (or an argument) saying whether it succeeds and
  with what; the file system and the log of network requests are explicit state.
-/

set_option autoImplicit false

namespace Destiny2DB

/-! ## Errors -/

/-- The failures `db.go` hands back to its caller, named after the call that produced them. -/
inductive Error where
  /-- `Destiny2GetDestinyManifest` failed. -/
  | manifest
  /-- `http.Get` failed. -/
  | network
  /-- `ioutil.ReadAll(resp.Body)` failed. -/
  | bodyRead
  /-- `zip.NewReader` rejected the bytes. -/
  | zipParse
  /-- `errors.New("expected one file in database archive")`. -/
  | entryCount
  /-- `reader.File[0].Open()` failed. -/
  | entryOpen
  /-- `os.Create` failed. -/
  | create
  /-- `io.Copy` failed. -/
  | copy
  /-- `sql.Open` failed. -/
  | sqlOpen
  /-- `db.Query` failed (the engine rejected the statement). -/
  | query
  /-- `sql.ErrNoRows`, the error of `Row.Scan` on an empty result. -/
  | noRows
  /-- `json.Decoder.Decode` failed. -/
  | decode
  deriving DecidableEq, Repr

/-! ## Accessor: `Get` and `GetAll` -/

/-- The conversion `int32(hash)` of a `uint32`: the low 31 bits keep their weight and
bit 31 becomes the sign bit, of weight `-2^31`. -/
def int32 (hash : Nat) : Int :=
  ((hash % 2 ^ 31 : Nat) : Int) - (if hash / 2 ^ 31 % 2 = 1 then 2 ^ 31 else 0)

/-- The conversion `uint32(k)` of an `int32`: the residue of `k` modulo `2^32`. -/
def uint32 (k : Int) : Nat :=
  (k % 2 ^ 32).toNat

/-- A row of an entity table: the integer column `id` and the text column `json`. -/
structure Row where
  id : Int
  json : String
  deriving DecidableEq, Repr

/-- The relational file as the engine sees it: the rows of each table, in the order the
engine returns them, or `none` for a name that is not a table. -/
abbrev Database := String → Option (List Row)

/-- `db.db.Query("SELECT json FROM <table>")`: the `json` column of every row. -/
def Query (db : Database) (table : String) : Option (List String) :=
  (db table).map (fun rows => rows.map Row.json)

/-- `db.db.QueryRow("SELECT json FROM <table> WHERE id=?", key)`: the `json` column of the
rows whose `id` is `key`. -/
def QueryRow (db : Database) (table : String) (key : Int) : Option (List String) :=
  (db table).map (fun rows => (rows.filter (fun r => r.id = key)).map Row.json)

/-- `Get`.  The caller's `t` is used only for the type it points to, so it is represented
by `decode`: what `json.NewDecoder(...).Decode` makes of a text for a fresh value of that
type.  `row.Scan` returns `sql.ErrNoRows` on an empty result and otherwise reads the
first row. -/
def Get {α : Type} (db : Database) (table : String) (hash : Nat)
    (decode : String → Option α) : Option α × Option Error :=
  match QueryRow db table (int32 hash) with
  | none => (none, some Error.query)
  | some [] => (none, some Error.noRows)
  | some (encoded :: _) =>
    match decode encoded with
    | none => (none, some Error.decode)
    | some value => (some value, none)

/-- The `for rows.Next()` loop of `GetAll`: `values` is the slice built so far. -/
def GetAll.loop {α : Type} (decode : String → Option α) :
    List String → List α → Option (List α) × Option Error
  | [], values => (some values, none)
  | encoded :: rest, values =>
    match decode encoded with
    | none => (none, some Error.decode)
    | some value => GetAll.loop decode rest (values ++ [value])

/-- `GetAll`: scan the table, decoding every row into the slice `values`.  As in `Get`,
`t` is a pointer to a value of the result type and is represented by `decode`; the slice
has the type of `t` as its element type, and each element is the pointer to a fresh
decoded value.  The engine serves the rows of a stored table without error, so
`rows.Scan` and `rows.Err` return `nil`. -/
def GetAll {α : Type} (db : Database) (table : String)
    (decode : String → Option α) : Option (List α) × Option Error :=
  match Query db table with
  | none => (none, some Error.query)
  | some rows => GetAll.loop decode rows []

/-! ## The file system, the network and the archive reader -/

/-- File contents. -/
abbrev Bytes := List UInt8

/-- What a name of the file system denotes. -/
inductive Node where
  | file (content : Bytes)
  | dir
  deriving DecidableEq, Repr

/-- The file system as the process sees it, names resolved against the working directory.
The working directory itself, ".", is always there. -/
structure FS where
  node : String → Option Node
  cwd : node "." = some Node.dir

/-- `os.Stat(name)` returns no error: the name denotes something. -/
def FS.Stat (fs : FS) (name : String) : Bool :=
  (fs.node name).isSome

/-- The file system in which `name` is a regular file holding `content` (the working
directory stays what it is). -/
def FS.put (fs : FS) (name : String) (content : Bytes) : FS where
  node := fun p => if p = "." then fs.node p else if p = name then some (Node.file content) else fs.node p
  cwd := by simp [fs.cwd]

/-- A request sent over the network. -/
inductive Request where
  /-- The metadata request `Destiny2GetDestinyManifest`. -/
  | manifest
  /-- The request `http.Get(url)`. -/
  | get (url : String)
  deriving DecidableEq, Repr

/-- The state `Open` and `download` act on. -/
structure World where
  fs : FS
  requests : List Request

/-- What reading an opened archive entry to its end yields: the decompressed bytes
delivered, and whether the read then ends in an error (bad checksum, corrupt stream)
instead of end of file. -/
structure Stream where
  data : Bytes
  fails : Bool
  deriving DecidableEq, Repr

/-- A `zip.File`: the result of its `Open()`, `none` when `Open()` returns an error. -/
structure ZipFile where
  Open : Option Stream
  deriving DecidableEq, Repr

/-- An `http.Response`: the bytes of the body, whether reading the body fails, and
whether the length of the body is known.  A body that `ioutil.ReadAll` reads without
error has the declared length whenever one is declared, so `ContentLength` is the
length of the body or `-1`. -/
structure Response where
  body : Bytes
  readFails : Bool
  lengthKnown : Bool
  deriving DecidableEq, Repr

/-- `resp.ContentLength`. -/
def Response.ContentLength (resp : Response) : Int :=
  if resp.lengthKnown then (resp.body.length : Int) else -1

/-- `ioutil.ReadAll(resp.Body)`. -/
def Response.ReadAll (resp : Response) : Option Bytes :=
  if resp.readFails then none else some resp.body

/-- The collaborators of `Open` and `download`. -/
structure Env where
  /-- The answer of the metadata service: the map `MobileWorldContentPaths`. -/
  getManifest : Option (List (String × String))
  /-- The answer of `http.Get(url)`. -/
  httpGet : String → Option Response
  /-- The ZIP format: the entries of the archive that a byte string is, if it is one. -/
  unzip : Bytes → Option (List ZipFile)
  /-- Whether the operating system lets the process create or truncate the name. -/
  creatable : String → Bool
  /-- How many bytes the destination accepts before a write fails (`none`: any number). -/
  space : Option Nat
  /-- Whether `sql.Open("sqlite3", name)` returns no error. -/
  sqlOpen : String → Bool

/-- `zip.NewReader(bytes.NewReader(b), size)`: a negative size is refused, otherwise the
first `size` bytes are read as an archive. -/
def zipNewReader (env : Env) (b : Bytes) (size : Int) : Option (List ZipFile) :=
  if size < 0 then none else env.unzip (b.take size.toNat)

/-- `os.Create(name)`: fails on a directory and where the operating system refuses;
otherwise the name is an empty regular file afterwards. -/
def osCreate (env : Env) (fs : FS) (name : String) : Option FS :=
  if fs.node name = some Node.dir ∨ env.creatable name = false then none
  else some (fs.put name [])

/-- `io.Copy(out, f)`: the bytes that reach the destination, and whether an error is
returned.  Every byte read is written before a read error is reported; a write error
stops the copy at the destination's limit. -/
def ioCopy (env : Env) (s : Stream) : Bytes × Bool :=
  match env.space with
  | none => (s.data, s.fails)
  | some n => if n < s.data.length then (s.data.take n, true) else (s.data, s.fails)

/-! ## `download` -/

/-- `download(url, filename)`.  The archive's entries are matched against a list of
exactly one element: that is the test `len(reader.File) != 1` followed by
`reader.File[0]`.  Closing the body, the entry and the output file changes nothing
that is modelled. -/
def download (env : Env) (url filename : String) (w : World) : Option Error × World :=
  let w := { w with requests := w.requests ++ [Request.get url] }
  match env.httpGet url with
  | none => (some Error.network, w)
  | some resp =>
    match resp.ReadAll with
    | none => (some Error.bodyRead, w)
    | some b =>
      match zipNewReader env b resp.ContentLength with
      | none => (some Error.zipParse, w)
      | some files =>
        match files with
        | [file] =>
          match file.Open with
          | none => (some Error.entryOpen, w)
          | some f =>
            match osCreate env w.fs filename with
            | none => (some Error.create, w)
            | some fs =>
              let copied := ioCopy env f
              let w := { w with fs := fs.put filename copied.1 }
              if copied.2 then (some Error.copy, w) else (none, w)
        | _ => (some Error.entryCount, w)

/-! ## `Open` -/

/-- The bytes of `path` with its trailing slashes removed. -/
def stripTrailingSlashes (path : List Char) : List Char :=
  (path.reverse.dropWhile (fun c => c = '/')).reverse

/-- The bytes of `path` after its last slash, all of `path` when it has none. -/
def afterLastSlash (path : List Char) : List Char :=
  (path.reverse.takeWhile (fun c => c ≠ '/')).reverse

/-- Go's `path.Base`: the last element of `path`. -/
def Base (path : String) : String :=
  if path = "" then "."
  else
    let p := afterLastSlash (stripTrailingSlashes path.data)
    if p = [] then "/" else String.mk p

/-- Indexing a Go `map[string]string`: the zero value `""` for a key that is not there. -/
def mapIndex (m : List (String × String)) (key : String) : String :=
  (m.lookup key).getD ""

/-- The handle `Open` returns: the name of the file `sql.Open` was given. -/
structure DB where
  file : String
  deriving DecidableEq, Repr

/-- `Open(client, auth)`; the client and its credentials are `env.getManifest`.  The
line written by `log.Printf` is not modelled. -/
def Open (env : Env) (w : World) : (Option DB × Option Error) × World :=
  let w := { w with requests := w.requests ++ [Request.manifest] }
  match env.getManifest with
  | none => ((none, some Error.manifest), w)
  | some paths =>
    let filename := Base (mapIndex paths "en")
    let fetched : Option Error × World :=
      if w.fs.Stat filename then (none, w)
      else download env ("https://www.bungie.net" ++ mapIndex paths "en") filename w
    match fetched.1 with
    | some err => ((none, some err), fetched.2)
    | none =>
      if env.sqlOpen filename then ((some ⟨filename⟩, none), fetched.2)
      else ((none, some Error.sqlOpen), fetched.2)

/-! ## Concrete instances -/

/-- A table of three records, keyed by the `int32` of the hashes in `itemHashes`. -/
def itemRows : List Row :=
  [⟨5, "{}"⟩, ⟨-1, "[1]"⟩, ⟨-2147483648, "null"⟩]

/-- The hashes under which `itemRows` is keyed. -/
def itemHashes : List Nat := [5, 4294967295, 2147483648]

/-- A table whose second record holds a text that does not decode. -/
def brokenRows : List Row := [⟨5, "{}"⟩, ⟨7, ""⟩]

/-- A database with the tables "Items" and "Broken". -/
def itemDB : Database := fun table =>
  if table = "Items" then some itemRows
  else if table = "Broken" then some brokenRows
  else none

/-- A decoder for a small result type: a text decodes to its length, the empty text
does not decode. -/
def decodeLength : String → Option Nat := fun encoded =>
  if encoded = "" then none else some encoded.length

/-- The remote path of the manifest database for the locale "en". -/
def enPath : String := "/sqlite/en/world.content"

/-- The bytes of the archive served at `enPath`. -/
def archiveBytes : Bytes := [80, 75, 3, 4]

/-- The decompressed bytes of the database inside the archive. -/
def entryBytes : Bytes := [83, 81, 76]

/-- A file system holding the working directory and nothing else. -/
def emptyDir : FS where
  node := fun p => if p = "." then some Node.dir else none
  cwd := rfl

/-- A world with an empty working directory and no request sent yet. -/
def freshWorld : World := ⟨emptyDir, []⟩

/-- A world whose working directory already holds the cache file. -/
def cachedWorld : World := ⟨emptyDir.put "world.content" entryBytes, []⟩

/-- The collaborators when the metadata service answers `paths`, the archive served at
`enPath` has the entries `entries`, and the working directory is writable or not. -/
def serving (paths : List (String × String)) (entries : List ZipFile)
    (writableDir : Bool) : Env where
  getManifest := some paths
  httpGet := fun url =>
    if url = "https://www.bungie.net" ++ enPath then some ⟨archiveBytes, false, true⟩
    else none
  unzip := fun b => if b = archiveBytes then some entries else none
  creatable := fun _ => writableDir
  space := none
  sqlOpen := fun _ => true

/-- The collaborators of `serving` with a writable working directory, when the server
sends the archive without declaring its length (a chunked response). -/
def servingUndeclared (paths : List (String × String)) (entries : List ZipFile) : Env where
  getManifest := some paths
  httpGet := fun url =>
    if url = "https://www.bungie.net" ++ enPath then some ⟨archiveBytes, false, false⟩
    else none
  unzip := fun b => if b = archiveBytes then some entries else none
  creatable := fun _ => true
  space := none
  sqlOpen := fun _ => true

/-! ## Lemmas on the accessor -/

/-- With pairwise distinct ids, the rows selected by an id that occurs are that one row. -/
theorem filter_id_eq_singleton (rows : List Row) (key : Int) (r : Row)
    (hnd : (rows.map Row.id).Nodup) (hr : r ∈ rows) (hk : r.id = key) :
    rows.filter (fun x => x.id = key) = [r] := by
  induction rows with
  | nil => cases hr
  | cons a t ih =>
    rw [List.map_cons, List.nodup_cons] at hnd
    rcases List.mem_cons.mp hr with rfl | hmem
    · have hnone : t.filter (fun x => decide (x.id = key)) = [] := by
        rw [List.filter_eq_nil_iff]
        intro x hx hxk
        apply hnd.1
        have : x.id = r.id := by simpa [hk] using hxk
        rw [← this]
        exact List.mem_map_of_mem Row.id hx
      simp [List.filter_cons, hk, hnone]
    · have hne : a.id ≠ key := by
        intro hak
        apply hnd.1
        rw [hak, ← hk]
        exact List.mem_map_of_mem Row.id hmem
      simp [List.filter_cons, hne, ih hnd.2 hmem]

/-- No row with the id: the selection is empty. -/
theorem filter_id_eq_nil (rows : List Row) (key : Int)
    (hno : ∀ r ∈ rows, r.id ≠ key) :
    rows.filter (fun x => x.id = key) = [] := by
  rw [List.filter_eq_nil_iff]
  intro x hx hxk
  exact hno x hx (by simpa using hxk)

/-- What `Get` returns when the table holds a row under the key. -/
theorem Get_of_mem {α : Type} (db : Database) (table : String) (rows : List Row)
    (hash : Nat) (decode : String → Option α) (r : Row)
    (hdb : db table = some rows) (hnd : (rows.map Row.id).Nodup)
    (hr : r ∈ rows) (hk : r.id = int32 hash) :
    Get db table hash decode =
      (match decode r.json with
       | none => (none, some Error.decode)
       | some value => (some value, none)) := by
  simp [Get, QueryRow, hdb, filter_id_eq_singleton rows (int32 hash) r hnd hr hk]

/-- The loop of `GetAll` on rows that all decode appends their decodings, in order. -/
theorem GetAll_loop_ok {α : Type} (decode : String → Option α) :
    ∀ (rows : List String) (values decoded : List α),
      rows.map decode = decoded.map some →
      GetAll.loop decode rows values = (some (values ++ decoded), none) := by
  intro rows
  induction rows with
  | nil =>
    intro values decoded h
    cases decoded with
    | nil => simp [GetAll.loop]
    | cons d ds => simp at h
  | cons e rest ih =>
    intro values decoded h
    cases decoded with
    | nil => simp at h
    | cons d ds =>
      simp only [List.map_cons, List.cons.injEq] at h
      simp [GetAll.loop, h.1, ih (values ++ [d]) ds h.2]

/-- The loop of `GetAll` on rows one of which does not decode returns the decode error. -/
theorem GetAll_loop_fail {α : Type} (decode : String → Option α) :
    ∀ (rows : List String) (values : List α),
      (∃ e ∈ rows, decode e = none) →
      GetAll.loop decode rows values = (none, some Error.decode) := by
  intro rows
  induction rows with
  | nil => intro values h; simp at h
  | cons e rest ih =>
    intro values h
    cases hd : decode e with
    | none => simp [GetAll.loop, hd]
    | some v =>
      have hrest : ∃ x ∈ rest, decode x = none := by
        rcases h with ⟨x, hx, hxd⟩
        rcases List.mem_cons.mp hx with rfl | hx'
        · rw [hd] at hxd; cases hxd
        · exact ⟨x, hx', hxd⟩
      simp [GetAll.loop, hd, ih (values ++ [v]) hrest]

/-- Rows that all decode have a list of decodings. -/
theorem exists_decoded {α : Type} (decode : String → Option α) :
    ∀ (rows : List String), (∀ e ∈ rows, (decode e).isSome) →
      ∃ decoded : List α, rows.map decode = decoded.map some := by
  intro rows
  induction rows with
  | nil => intro _; exact ⟨[], rfl⟩
  | cons e rest ih =>
    intro h
    obtain ⟨ds, hds⟩ := ih (fun x hx => h x (List.mem_cons_of_mem _ hx))
    obtain ⟨d, hd⟩ := Option.isSome_iff_exists.mp (h e (List.mem_cons_self _ _))
    exact ⟨d :: ds, by simp [hd, hds]⟩

/-- What `GetAll` returns on a table whose rows all decode. -/
theorem GetAll_of_decoded {α : Type} (db : Database) (table : String) (rows : List Row)
    (decode : String → Option α) (decoded : List α)
    (hdb : db table = some rows)
    (hdec : rows.map (fun r => decode r.json) = decoded.map some) :
    GetAll db table decode = (some decoded, none) := by
  have h := GetAll_loop_ok decode (rows.map Row.json) [] decoded
    (by simpa [List.map_map, Function.comp_def] using hdec)
  simpa [GetAll, Query, hdb] using h

/-! ## The accessor's contract -/

/-- C1: `Get` is a point lookup with three outcomes.  On a table with pairwise distinct
ids and a hash `h` below `2^32`: no row under `int32 h` gives the not-found error and no
value; a row under `int32 h` whose text does not decode gives the decode error and no
value; otherwise the value is exactly what the row's text decodes to, with no error. -/
theorem Get_three_outcomes {α : Type} (db : Database) (table : String) (rows : List Row)
    (h : Nat) (decode : String → Option α)
    (hdb : db table = some rows) (hnd : (rows.map Row.id).Nodup) (_hh : h < 2 ^ 32) :
    ((∀ r ∈ rows, r.id ≠ int32 h) → Get db table h decode = (none, some Error.noRows)) ∧
    (∀ r ∈ rows, r.id = int32 h → decode r.json = none →
      Get db table h decode = (none, some Error.decode)) ∧
    (∀ r ∈ rows, r.id = int32 h → ∀ v, decode r.json = some v →
      Get db table h decode = (some v, none)) := by
  refine ⟨?_, ?_, ?_⟩
  · intro hno
    simp [Get, QueryRow, hdb, filter_id_eq_nil rows (int32 h) hno]
  · intro r hr hk hd
    rw [Get_of_mem db table rows h decode r hdb hnd hr hk, hd]
  · intro r hr hk v hd
    rw [Get_of_mem db table rows h decode r hdb hnd hr hk, hd]

/-- C2: `GetAll` is all-or-nothing.  If every row decodes, the result is, with no error,
a sequence as long as the table whose i-th element is the decoding of the i-th row; if
some row does not decode, the result is the decode error and no sequence. -/
theorem GetAll_all_or_nothing {α : Type} (db : Database) (table : String)
    (rows : List Row) (decode : String → Option α) (hdb : db table = some rows) :
    ((∀ r ∈ rows, (decode r.json).isSome) →
      ∃ values : List α, GetAll db table decode = (some values, none) ∧
        values.length = rows.length ∧
        ∀ (i : Nat) (r : Row), rows[i]? = some r → decode r.json = values[i]?) ∧
    ((∃ r ∈ rows, decode r.json = none) →
      GetAll db table decode = (none, some Error.decode)) := by
  constructor
  · intro hall
    obtain ⟨decoded, hdec⟩ := exists_decoded decode (rows.map Row.json)
      (by intro e he
          obtain ⟨r, hr, rfl⟩ := List.mem_map.mp he
          exact hall r hr)
    have hdec2 : rows.map (fun r => decode r.json) = decoded.map some := by
      simpa [List.map_map, Function.comp_def] using hdec
    refine ⟨decoded, GetAll_of_decoded db table rows decode decoded hdb hdec2, ?_, ?_⟩
    · have := congrArg List.length hdec2
      simpa using this.symm
    · intro i r hir
      have := congrArg (fun l => l[i]?) hdec2
      simp only [List.getElem?_map, hir, Option.map_some] at this
      cases hv : decoded[i]? with
      | none => simp [hv] at this
      | some v => simpa [hv] using this
  · rintro ⟨r, hr, hd⟩
    have := GetAll_loop_fail decode (rows.map Row.json) []
      ⟨r.json, List.mem_map_of_mem Row.json hr, hd⟩
    simpa [GetAll, Query, hdb] using this

/-- C3: round trip between `Get` and `GetAll`.  On a table whose keys are pairwise
distinct and are the `int32` of the known hashes, and whose records all decode: `Get`
succeeds on every hash, `GetAll` succeeds, and the values `Get` returns over the hashes
are exactly the elements of the sequence `GetAll` returns. -/
theorem Get_GetAll_round_trip {α : Type} (db : Database) (table : String)
    (rows : List Row) (hashes : List Nat) (decode : String → Option α)
    (hdb : db table = some rows)
    (hkeys : rows.map Row.id = hashes.map int32)
    (_hh : ∀ h ∈ hashes, h < 2 ^ 32)
    (hnd : (rows.map Row.id).Nodup)
    (hall : ∀ r ∈ rows, (decode r.json).isSome) :
    (∀ h ∈ hashes, ∃ v, Get db table h decode = (some v, none)) ∧
    ∃ values : List α, GetAll db table decode = (some values, none) ∧
      ∀ v, v ∈ values ↔ ∃ h ∈ hashes, Get db table h decode = (some v, none) := by
  have hrow : ∀ h ∈ hashes, ∃ r ∈ rows, r.id = int32 h := by
    intro h hh
    have : int32 h ∈ rows.map Row.id := by
      rw [hkeys]; exact List.mem_map_of_mem int32 hh
    obtain ⟨r, hr, hrid⟩ := List.mem_map.mp this
    exact ⟨r, hr, hrid⟩
  have hhash : ∀ r ∈ rows, ∃ h ∈ hashes, r.id = int32 h := by
    intro r hr
    have : r.id ∈ hashes.map int32 := by
      rw [← hkeys]; exact List.mem_map_of_mem Row.id hr
    obtain ⟨h, hh, hid⟩ := List.mem_map.mp this
    exact ⟨h, hh, hid.symm⟩
  obtain ⟨decoded, hdec⟩ := exists_decoded decode (rows.map Row.json)
    (by intro e he
        obtain ⟨r, hr, rfl⟩ := List.mem_map.mp he
        exact hall r hr)
  have hdec2 : rows.map (fun r => decode r.json) = decoded.map some := by
    simpa [List.map_map, Function.comp_def] using hdec
  have hmem : ∀ v, v ∈ decoded ↔ ∃ r ∈ rows, decode r.json = some v := by
    intro v
    have : some v ∈ decoded.map some ↔ some v ∈ rows.map (fun r => decode r.json) := by
      rw [hdec2]
    simp only [List.mem_map, Option.some.injEq, exists_eq_right] at this
    exact this
  constructor
  · intro h hh
    obtain ⟨r, hr, hrid⟩ := hrow h hh
    obtain ⟨v, hv⟩ := Option.isSome_iff_exists.mp (hall r hr)
    exact ⟨v, by rw [Get_of_mem db table rows h decode r hdb hnd hr hrid, hv]⟩
  · refine ⟨decoded, GetAll_of_decoded db table rows decode decoded hdb hdec2, ?_⟩
    intro v
    rw [hmem v]
    constructor
    · rintro ⟨r, hr, hv⟩
      obtain ⟨h, hh, hrid⟩ := hhash r hr
      exact ⟨h, hh, by rw [Get_of_mem db table rows h decode r hdb hnd hr hrid, hv]⟩
    · rintro ⟨h, hh, hget⟩
      obtain ⟨r, hr, hrid⟩ := hrow h hh
      refine ⟨r, hr, ?_⟩
      rw [Get_of_mem db table rows h decode r hdb hnd hr hrid] at hget
      cases hd : decode r.json with
      | none => rw [hd] at hget; simp at hget
      | some x =>
        rw [hd] at hget
        simp only [Prod.mk.injEq, Option.some.injEq, and_true] at hget
        rw [hget]

/-- C4: the key `Get` binds is the two's-complement reading of the hash.  For `h` below
`2^32` the key `int32 h` is `h` when `h < 2^31` and `h - 2^32` otherwise; it lies in
`[-2^31, 2^31)`, is congruent to `h` modulo `2^32`, converts back to `h`, and belongs
to no other hash. -/
theorem int32_reinterpretation (h : Nat) (hh : h < 2 ^ 32) :
    int32 h = (if h < 2 ^ 31 then (h : Int) else (h : Int) - 2 ^ 32) ∧
    (-(2 ^ 31 : Int) ≤ int32 h ∧ int32 h < 2 ^ 31) ∧
    int32 h % 2 ^ 32 = (h : Int) % 2 ^ 32 ∧
    uint32 (int32 h) = h ∧
    (∀ h2 : Nat, h2 < 2 ^ 32 → int32 h2 = int32 h → h2 = h) ∧
    (∀ (α : Type) (db : Database) (table : String) (decode : String → Option α),
      Get db table h decode =
        (match QueryRow db table (if h < 2 ^ 31 then (h : Int) else (h : Int) - 2 ^ 32) with
         | none => (none, some Error.query)
         | some [] => (none, some Error.noRows)
         | some (encoded :: _) =>
           match decode encoded with
           | none => (none, some Error.decode)
           | some value => (some value, none))) := by
  have key : ∀ n : Nat, n < 2 ^ 32 →
      int32 n = (if n < 2 ^ 31 then (n : Int) else (n : Int) - 2 ^ 32) := by
    intro n hn
    unfold int32
    split <;> split <;> omega
  refine ⟨key h hh, ?_, ?_, ?_, ?_, ?_⟩
  · rw [key h hh]; split <;> omega
  · rw [key h hh]; split <;> omega
  · unfold uint32; rw [key h hh]; split <;> omega
  · intro h2 hh2 heq
    rw [key h hh, key h2 hh2] at heq
    split at heq <;> split at heq <;> omega
  · intro α db table decode
    rw [← key h hh]
    rfl

/-! ## Lemmas on the file system -/

/-- A name that is not a directory is not the working directory. -/
theorem FS.ne_cwd_of_not_dir (fs : FS) (name : String)
    (h : fs.node name ≠ some Node.dir) : name ≠ "." := by
  intro hn
  rw [hn] at h
  exact h fs.cwd

/-- After `put`, the name holds the content, unless it is the working directory. -/
theorem FS.put_node_self (fs : FS) (name : String) (content : Bytes)
    (h : name ≠ ".") : (fs.put name content).node name = some (Node.file content) := by
  simp [FS.put, h]

/-- When `os.Create` succeeds, the name was no directory and is an empty file afterwards. -/
theorem osCreate_some (env : Env) (fs fs1 : FS) (name : String)
    (h : osCreate env fs name = some fs1) :
    fs.node name ≠ some Node.dir ∧ fs1 = fs.put name [] := by
  unfold osCreate at h
  split at h
  · cases h
  · rename_i hno
    simp only [not_or] at hno
    exact ⟨hno.1, (Option.some.inj h).symm⟩

/-- The steps of `download` before `os.Create` leave the file system alone; only a
failed copy returns an error after the file system has changed. -/
theorem download_error_cases (env : Env) (url filename : String) (w : World) (e : Error)
    (herr : (download env url filename w).1 = some e) :
    (e ≠ Error.copy ∧ (download env url filename w).2.fs = w.fs) ∨
    (e = Error.copy ∧ ∃ content : Bytes,
      (download env url filename w).2.fs.node filename = some (Node.file content)) := by
  revert herr
  unfold download
  simp only
  repeat' split
  all_goals intro herr
  all_goals first
    | (left; exact ⟨(by rintro rfl; cases herr), rfl⟩)
    | (cases herr; done)
    | skip
  rename_i fs1 hcreate hcopy
  obtain ⟨hnd, -⟩ := osCreate_some env w.fs fs1 filename hcreate
  right
  simp only at herr ⊢
  exact ⟨(Option.some.inj herr).symm, _,
    FS.put_node_self fs1 filename _ (FS.ne_cwd_of_not_dir w.fs filename hnd)⟩

/-- When `download` returns no error, a regular file is at the destination. -/
theorem download_ok_file (env : Env) (url filename : String) (w : World)
    (hok : (download env url filename w).1 = none) :
    ∃ content : Bytes,
      (download env url filename w).2.fs.node filename = some (Node.file content) := by
  revert hok
  unfold download
  simp only
  repeat' split
  all_goals intro hok
  all_goals first
    | (cases hok; done)
    | skip
  rename_i fs1 hcreate hcopy
  obtain ⟨hnd, -⟩ := osCreate_some env w.fs fs1 filename hcreate
  exact ⟨_, FS.put_node_self fs1 filename _ (FS.ne_cwd_of_not_dir w.fs filename hnd)⟩

/-- `zip.NewReader` given the length of the bytes reads all of them. -/
theorem zipNewReader_length (env : Env) (b : Bytes) :
    zipNewReader env b (b.length : Int) = env.unzip b := by
  simp [zipNewReader]

/-- What `Open` does when the metadata service answers and the cache file exists. -/
theorem Open_of_stat (env : Env) (w : World) (paths : List (String × String))
    (hman : env.getManifest = some paths)
    (hstat : w.fs.Stat (Base (mapIndex paths "en")) = true) :
    Open env w =
      ((if env.sqlOpen (Base (mapIndex paths "en")) = true
          then (some ⟨Base (mapIndex paths "en")⟩, none)
          else (none, some Error.sqlOpen)),
       { w with requests := w.requests ++ [Request.manifest] }) := by
  unfold Open
  simp only [hman, hstat, if_true]
  split <;> rfl

/-- What a successful `Open` tells: the metadata service answered, the handle is on the
final segment of the "en" path, `sql.Open` accepted it, and the file exists afterwards. -/
theorem Open_ok (env : Env) (w : World) (db : DB)
    (h1 : (Open env w).1 = (some db, none)) :
    ∃ paths, env.getManifest = some paths ∧ db.file = Base (mapIndex paths "en") ∧
      env.sqlOpen db.file = true ∧ (Open env w).2.fs.Stat db.file = true := by
  cases hm : env.getManifest with
  | none => simp [Open, hm] at h1
  | some paths =>
    refine ⟨paths, rfl, ?_⟩
    by_cases hst : w.fs.Stat (Base (mapIndex paths "en")) = true
    · rw [Open_of_stat env w paths hm hst] at h1 ⊢
      by_cases hs : env.sqlOpen (Base (mapIndex paths "en")) = true
      · simp only [hs, if_true, Prod.mk.injEq, Option.some.injEq, and_true] at h1
        subst h1
        exact ⟨rfl, hs, hst⟩
      · simp [hs] at h1
    · revert h1
      unfold Open
      simp only [hm, hst]
      cases hd : (download env ("https://www.bungie.net" ++ mapIndex paths "en")
          (Base (mapIndex paths "en"))
          { w with requests := w.requests ++ [Request.manifest] }).1 with
      | some err => simp [hd]
      | none =>
        obtain ⟨content, hc⟩ := download_ok_file env _ _ _ hd
        by_cases hs : env.sqlOpen (Base (mapIndex paths "en")) = true
        · simp only [hd, hs, if_true, if_false, Bool.false_eq_true]
          intro h1
          simp only [Prod.mk.injEq, Option.some.injEq, and_true] at h1
          subst h1
          exact ⟨rfl, hs, by simp [FS.Stat, hc]⟩
        · simp [hd, hs]

/-- A response that does not declare its length is refused by `zip.NewReader`,
whatever its body holds: `download` hands `resp.ContentLength`, then `-1`, as the size. -/
theorem download_unknown_length (env : Env) (url filename : String) (w : World)
    (resp : Response)
    (hget : env.httpGet url = some resp)
    (hread : resp.readFails = false) (hlen : resp.lengthKnown = false) :
    (download env url filename w).1 = some Error.zipParse ∧
    (download env url filename w).2.fs = w.fs := by
  simp [download, hget, Response.ReadAll, hread, Response.ContentLength, hlen, zipNewReader]

/-- When `zip.NewReader`, given `resp.ContentLength` as the size, yields an archive with
zero or several entries, `download` returns the entry-count error and the file system
afterwards is the file system before. -/
theorem download_wrong_entry_count_of_reader (env : Env) (url filename : String)
    (w : World) (resp : Response) (b : Bytes) (files : List ZipFile)
    (hget : env.httpGet url = some resp) (hread : resp.ReadAll = some b)
    (hzip : zipNewReader env b resp.ContentLength = some files)
    (hcount : files.length ≠ 1) :
    (download env url filename w).1 = some Error.entryCount ∧
    (download env url filename w).2.fs = w.fs ∧
    (download env url filename w).2.fs.node filename = w.fs.node filename := by
  have hfiles : ∀ file : ZipFile, files ≠ [file] := by
    intro file hf
    rw [hf] at hcount
    exact hcount rfl
  unfold download
  simp only [hget, hread, hzip]
  exact ⟨trivial, trivial, trivial⟩

/-- What `download` does for every response whose body is an archive with zero or
several entries: the file system is unchanged, and the error is the entry-count error
when the response declares its length, the error of `zip.NewReader` when it does not. -/
theorem download_wrong_entry_count_any_response (env : Env) (url filename : String)
    (w : World) (resp : Response) (files : List ZipFile)
    (hget : env.httpGet url = some resp) (hread : resp.readFails = false)
    (hzip : env.unzip resp.body = some files)
    (hcount : files.length ≠ 1) :
    (download env url filename w).1 =
      some (if resp.lengthKnown = true then Error.entryCount else Error.zipParse) ∧
    (download env url filename w).2.fs = w.fs := by
  cases hlen : resp.lengthKnown with
  | false =>
    simpa using download_unknown_length env url filename w resp hget hread hlen
  | true =>
    have hcl : resp.ContentLength = (resp.body.length : Int) := by
      simp [Response.ContentLength, hlen]
    have h := download_wrong_entry_count_of_reader env url filename w resp resp.body files
      hget (by simp [Response.ReadAll, hread])
      (by rw [hcl, zipNewReader_length]; exact hzip) hcount
    simpa using ⟨h.1, h.2.1⟩

/-! ## The fetcher's contract -/

/-- C6, as amended: `download` of a single-entry archive writes exactly that entry's
content.  When the response declares the length of its body, the body is an archive
with exactly one entry of decompressed bytes `B`, the destination can be created and the
destination accepts `B.length` bytes, `download` returns no error and the destination is
a regular file holding exactly `B`, whatever it held before. -/
theorem download_single_entry (env : Env) (url filename : String) (w : World)
    (resp : Response) (B : Bytes)
    (hget : env.httpGet url = some resp)
    (hread : resp.readFails = false) (hlen : resp.lengthKnown = true)
    (hzip : env.unzip resp.body = some [⟨some ⟨B, false⟩⟩])
    (hnodir : w.fs.node filename ≠ some Node.dir)
    (hcreatable : env.creatable filename = true)
    (hspace : ∀ n, env.space = some n → B.length ≤ n) :
    (download env url filename w).1 = none ∧
    (download env url filename w).2.fs.node filename = some (Node.file B) := by
  have hne : filename ≠ "." := FS.ne_cwd_of_not_dir w.fs filename hnodir
  have hcopy : ioCopy env ⟨B, false⟩ = (B, false) := by
    unfold ioCopy
    cases hsp : env.space with
    | none => rfl
    | some n =>
      have := hspace n hsp
      simp [Nat.not_lt.mpr this]
  have hcl : resp.ContentLength = (resp.body.length : Int) := by
    simp [Response.ContentLength, hlen]
  simp [download, hget, Response.ReadAll, hread, hcl, zipNewReader_length, hzip,
    osCreate, hnodir, hcreatable, hcopy, FS.put, hne]

/-- C8, as amended: a fetch that fails before the copy leaves nothing behind.  When no
file is at the destination before the call and `download` returns an error, then either
the error is not the copy error, the file system is unchanged and still nothing is at
the destination; or the error is the copy error and a regular file is at the
destination. -/
theorem download_failure_effect (env : Env) (url filename : String) (w : World) (e : Error)
    (habsent : w.fs.Stat filename = false)
    (herr : (download env url filename w).1 = some e) :
    (e ≠ Error.copy ∧ (download env url filename w).2.fs = w.fs ∧
      (download env url filename w).2.fs.Stat filename = false) ∨
    (e = Error.copy ∧ (download env url filename w).2.fs.Stat filename = true) := by
  rcases download_error_cases env url filename w e herr with ⟨hne, hfs⟩ | ⟨he, content, hc⟩
  · left
    exact ⟨hne, hfs, by rw [hfs]; exact habsent⟩
  · right
    exact ⟨he, by simp [FS.Stat, hc]⟩

/-! ## The contract of `Open` -/

/-- C7, as amended: a cache hit means no archive request.  When the metadata service
answers and a file named as the final segment of the "en" path exists, `Open` sends
exactly one request, the metadata request, and leaves the file system as it was. -/
theorem Open_cache_hit (env : Env) (w : World) (paths : List (String × String))
    (hman : env.getManifest = some paths)
    (hstat : w.fs.Stat (Base (mapIndex paths "en")) = true) :
    (Open env w).2.requests = w.requests ++ [Request.manifest] ∧
    (Open env w).2.fs = w.fs := by
  unfold Open
  simp only [hman, hstat, if_true]
  split <;> simp

/-- C9: opening is idempotent on the cache file.  When a first `Open` succeeds and the
metadata service answers a second `Open` as it answered the first, the second `Open`
finds the file of the first handle, sends the metadata request and nothing else,
returns a handle on the same file name and leaves the file system, hence the bytes of
that file, as the first call left it. -/
theorem Open_idempotent (env env2 : Env) (w : World) (db : DB)
    (hman : env2.getManifest = env.getManifest)
    (hsql : env2.sqlOpen = env.sqlOpen)
    (h1 : (Open env w).1 = (some db, none)) :
    (Open env w).2.fs.Stat db.file = true ∧
    (Open env2 (Open env w).2).1 = (some db, none) ∧
    (Open env2 (Open env w).2).2.requests = (Open env w).2.requests ++ [Request.manifest] ∧
    (Open env2 (Open env w).2).2.fs = (Open env w).2.fs ∧
    (Open env2 (Open env w).2).2.fs.node db.file = (Open env w).2.fs.node db.file := by
  obtain ⟨paths, hm, hfile, hs, hst⟩ := Open_ok env w db h1
  have hm2 : env2.getManifest = some paths := by rw [hman, hm]
  have hst2 : (Open env w).2.fs.Stat (Base (mapIndex paths "en")) = true := by
    rw [← hfile]; exact hst
  have hs2 : env2.sqlOpen (Base (mapIndex paths "en")) = true := by
    rw [hsql, ← hfile]; exact hs
  have hdb : db = ⟨Base (mapIndex paths "en")⟩ := by
    cases db; simp only [DB.mk.injEq]; exact hfile
  rw [Open_of_stat env2 (Open env w).2 paths hm2 hst2]
  simp [hs2, hst2, hdb]

/-- C10: a descriptor without a usable "en" path bypasses the fetch.  When the "en" entry
is absent or empty, the file name `Open` derives is "." and not the empty string; "."
exists, being the working directory, so `Open` sends the metadata request and no other,
leaves the file system alone, and hands "." to `sql.Open`, whose verdict is the result. -/
theorem Open_without_en_path (env : Env) (w : World) (paths : List (String × String))
    (hman : env.getManifest = some paths)
    (hen : paths.lookup "en" = none ∨ paths.lookup "en" = some "") :
    Base (mapIndex paths "en") = "." ∧
    Base (mapIndex paths "en") ≠ "" ∧
    w.fs.Stat (Base (mapIndex paths "en")) = true ∧
    (Open env w).2.requests = w.requests ++ [Request.manifest] ∧
    (Open env w).2.fs = w.fs ∧
    (Open env w).1 =
      (if env.sqlOpen "." = true then (some ⟨"."⟩, none) else (none, some Error.sqlOpen)) := by
  have hidx : mapIndex paths "en" = "" := by
    rcases hen with h | h <;> simp [mapIndex, h]
  have hbase : Base (mapIndex paths "en") = "." := by rw [hidx]; rfl
  have hstat : w.fs.Stat (Base (mapIndex paths "en")) = true := by
    rw [hbase]; simp [FS.Stat, w.fs.cwd]
  refine ⟨hbase, ?_, hstat, ?_, ?_, ?_⟩
  · rw [hbase]; decide
  · rw [Open_of_stat env w paths hman hstat]
  · rw [Open_of_stat env w paths hman hstat]
  · rw [Open_of_stat env w paths hman hstat, hbase]

/-! ## The contracts at concrete inputs -/

/-- The lookup of the hash `4294967295` in "Items" finds the record keyed `-1`. -/
theorem Get_three_outcomes_witness :
    itemDB "Items" = some itemRows ∧ (itemRows.map Row.id).Nodup ∧
    4294967295 < 2 ^ 32 ∧
    Get itemDB "Items" 4294967295 decodeLength = (some 3, none) :=
  ⟨rfl, by decide, by decide,
    (Get_three_outcomes itemDB "Items" itemRows 4294967295 decodeLength rfl
      (by decide) (by decide)).2.2 ⟨-1, "[1]"⟩ (by decide) (by decide) 3 (by decide)⟩

/-- The scan of "Broken", whose second record does not decode, returns no sequence. -/
theorem GetAll_all_or_nothing_witness :
    itemDB "Broken" = some brokenRows ∧
    GetAll itemDB "Broken" decodeLength = (none, some Error.decode) :=
  ⟨rfl, (GetAll_all_or_nothing itemDB "Broken" brokenRows decodeLength rfl).2
    ⟨⟨7, ""⟩, by decide, by decide⟩⟩

/-- The hash `2147483648` of "Items" is found by `Get`. -/
theorem Get_GetAll_round_trip_witness :
    itemDB "Items" = some itemRows ∧
    itemRows.map Row.id = itemHashes.map int32 ∧
    (∀ h ∈ itemHashes, h < 2 ^ 32) ∧
    (itemRows.map Row.id).Nodup ∧
    (∀ r ∈ itemRows, (decodeLength r.json).isSome) ∧
    ∃ v, Get itemDB "Items" 2147483648 decodeLength = (some v, none) :=
  ⟨rfl, by decide, by decide, by decide, by decide,
    (Get_GetAll_round_trip itemDB "Items" itemRows itemHashes decodeLength rfl
      (by decide) (by decide) (by decide) (by decide)).1 2147483648 (by decide)⟩

/-- The key of the largest hash converts back to it. -/
theorem int32_reinterpretation_witness :
    4294967295 < 2 ^ 32 ∧ uint32 (int32 4294967295) = 4294967295 :=
  ⟨by decide, (int32_reinterpretation 4294967295 (by decide)).2.2.2.1⟩

/-- An archive of two entries is refused and the empty working directory stays empty. -/
theorem download_wrong_entry_count_of_reader_witness :
    (serving [("en", enPath)] [⟨none⟩, ⟨none⟩] true).httpGet
        ("https://www.bungie.net" ++ enPath) = some ⟨archiveBytes, false, true⟩ ∧
    (⟨archiveBytes, false, true⟩ : Response).ReadAll = some archiveBytes ∧
    zipNewReader (serving [("en", enPath)] [⟨none⟩, ⟨none⟩] true) archiveBytes
        (⟨archiveBytes, false, true⟩ : Response).ContentLength = some [⟨none⟩, ⟨none⟩] ∧
    [(⟨none⟩ : ZipFile), ⟨none⟩].length ≠ 1 ∧
    (download (serving [("en", enPath)] [⟨none⟩, ⟨none⟩] true)
        ("https://www.bungie.net" ++ enPath) "world.content" freshWorld).1
      = some Error.entryCount ∧
    (download (serving [("en", enPath)] [⟨none⟩, ⟨none⟩] true)
        ("https://www.bungie.net" ++ enPath) "world.content" freshWorld).2.fs
      = freshWorld.fs ∧
    (download (serving [("en", enPath)] [⟨none⟩, ⟨none⟩] true)
        ("https://www.bungie.net" ++ enPath) "world.content" freshWorld).2.fs.node
        "world.content"
      = freshWorld.fs.node "world.content" :=
  ⟨by decide, by decide, by decide, by decide,
    download_wrong_entry_count_of_reader (serving [("en", enPath)] [⟨none⟩, ⟨none⟩] true)
      ("https://www.bungie.net" ++ enPath) "world.content" freshWorld
      ⟨archiveBytes, false, true⟩ archiveBytes [⟨none⟩, ⟨none⟩]
      (by decide) (by decide) (by decide) (by decide)⟩

/-- C5 at a response that declares no length: `download` is to reject an archive whose
entry count is not one with the entry-count error, without touching the destination.
Here the body read is an archive of two entries, yet `download` returns the error of
`zip.NewReader` and never counts the entries; nothing is at the destination before or
after. -/
theorem download_wrong_entry_count_undeclared_length :
    (servingUndeclared [("en", enPath)] [⟨none⟩, ⟨none⟩]).httpGet
        ("https://www.bungie.net" ++ enPath) = some ⟨archiveBytes, false, false⟩ ∧
    (⟨archiveBytes, false, false⟩ : Response).ReadAll = some archiveBytes ∧
    (servingUndeclared [("en", enPath)] [⟨none⟩, ⟨none⟩]).unzip archiveBytes
      = some [⟨none⟩, ⟨none⟩] ∧
    (⟨archiveBytes, false, false⟩ : Response).ContentLength = -1 ∧
    (download (servingUndeclared [("en", enPath)] [⟨none⟩, ⟨none⟩])
        ("https://www.bungie.net" ++ enPath) "world.content" freshWorld).1
      = some Error.zipParse ∧
    (download (servingUndeclared [("en", enPath)] [⟨none⟩, ⟨none⟩])
        ("https://www.bungie.net" ++ enPath) "world.content" freshWorld).1
      ≠ some Error.entryCount ∧
    freshWorld.fs.node "world.content" = none ∧
    (download (servingUndeclared [("en", enPath)] [⟨none⟩, ⟨none⟩])
        ("https://www.bungie.net" ++ enPath) "world.content" freshWorld).2.fs.node
        "world.content"
      = none := by
  decide

/-- C6 fails as stated: the body is an archive with the single entry `entryBytes`, the
working directory is not writable, and `download` returns the error of `os.Create`. -/
theorem download_single_entry_counterexample :
    (serving [("en", enPath)] [⟨some ⟨entryBytes, false⟩⟩] false).httpGet
        ("https://www.bungie.net" ++ enPath) = some ⟨archiveBytes, false, true⟩ ∧
    (⟨archiveBytes, false, true⟩ : Response).ReadAll = some archiveBytes ∧
    (serving [("en", enPath)] [⟨some ⟨entryBytes, false⟩⟩] false).unzip archiveBytes
      = some [⟨some ⟨entryBytes, false⟩⟩] ∧
    (download (serving [("en", enPath)] [⟨some ⟨entryBytes, false⟩⟩] false)
        ("https://www.bungie.net" ++ enPath) "world.content" freshWorld).1
      = some Error.create ∧
    (download (serving [("en", enPath)] [⟨some ⟨entryBytes, false⟩⟩] false)
        ("https://www.bungie.net" ++ enPath) "world.content" freshWorld).2.fs.node
        "world.content"
      = none := by
  decide

/-- With a writable working directory the same archive ends up in "world.content",
replacing what the file held. -/
theorem download_single_entry_witness :
    (serving [("en", enPath)] [⟨some ⟨entryBytes, false⟩⟩] true).httpGet
        ("https://www.bungie.net" ++ enPath) = some ⟨archiveBytes, false, true⟩ ∧
    (emptyDir.put "world.content" [0, 0, 0, 0, 0]).node "world.content" ≠ some Node.dir ∧
    (download (serving [("en", enPath)] [⟨some ⟨entryBytes, false⟩⟩] true)
        ("https://www.bungie.net" ++ enPath) "world.content"
        ⟨emptyDir.put "world.content" [0, 0, 0, 0, 0], []⟩).1 = none ∧
    (download (serving [("en", enPath)] [⟨some ⟨entryBytes, false⟩⟩] true)
        ("https://www.bungie.net" ++ enPath) "world.content"
        ⟨emptyDir.put "world.content" [0, 0, 0, 0, 0], []⟩).2.fs.node "world.content"
      = some (Node.file entryBytes) :=
  ⟨by decide, by decide,
    download_single_entry (serving [("en", enPath)] [⟨some ⟨entryBytes, false⟩⟩] true)
      ("https://www.bungie.net" ++ enPath) "world.content"
      ⟨emptyDir.put "world.content" [0, 0, 0, 0, 0], []⟩
      ⟨archiveBytes, false, true⟩ entryBytes
      (by decide) rfl rfl (by decide) (by decide) rfl (by intro n hn; cases hn)⟩

/-- C7 fails as stated: the cache file exists and `Open` still sends a request, the one
to the metadata service. -/
theorem Open_cache_hit_counterexample :
    cachedWorld.fs.Stat (Base (mapIndex [("en", enPath)] "en")) = true ∧
    (Open (serving [("en", enPath)] [] true) cachedWorld).2.requests
      = [Request.manifest] ∧
    (Open (serving [("en", enPath)] [] true) cachedWorld).2.requests
      ≠ cachedWorld.requests := by
  decide

/-- With the cache file present, the log grows by the metadata request alone. -/
theorem Open_cache_hit_witness :
    (serving [("en", enPath)] [] true).getManifest = some [("en", enPath)] ∧
    cachedWorld.fs.Stat (Base (mapIndex [("en", enPath)] "en")) = true ∧
    (Open (serving [("en", enPath)] [] true) cachedWorld).2.requests
      = cachedWorld.requests ++ [Request.manifest] ∧
    (Open (serving [("en", enPath)] [] true) cachedWorld).2.fs = cachedWorld.fs :=
  ⟨rfl, by decide,
    Open_cache_hit (serving [("en", enPath)] [] true) cachedWorld [("en", enPath)]
      rfl (by decide)⟩

/-- C8 fails as stated: nothing is at "world.content" before the call, the entry's
stream breaks after two bytes, and `download` returns the copy error with those two
bytes in a file at "world.content". -/
theorem download_failure_effect_counterexample :
    freshWorld.fs.Stat "world.content" = false ∧
    (download (serving [("en", enPath)] [⟨some ⟨[83, 81], true⟩⟩] true)
        ("https://www.bungie.net" ++ enPath) "world.content" freshWorld).1
      = some Error.copy ∧
    (download (serving [("en", enPath)] [⟨some ⟨[83, 81], true⟩⟩] true)
        ("https://www.bungie.net" ++ enPath) "world.content" freshWorld).2.fs.node
        "world.content"
      = some (Node.file [83, 81]) ∧
    (download (serving [("en", enPath)] [⟨some ⟨[83, 81], true⟩⟩] true)
        ("https://www.bungie.net" ++ enPath) "world.content" freshWorld).2.fs.Stat
        "world.content"
      = true := by
  decide

/-- A request that the network refuses leaves the empty working directory empty. -/
theorem download_failure_effect_witness :
    freshWorld.fs.Stat "world.content" = false ∧
    (download (serving [("en", enPath)] [] true) "https://elsewhere" "world.content"
        freshWorld).1 = some Error.network ∧
    ((Error.network ≠ Error.copy ∧
        (download (serving [("en", enPath)] [] true) "https://elsewhere" "world.content"
          freshWorld).2.fs = freshWorld.fs ∧
        (download (serving [("en", enPath)] [] true) "https://elsewhere" "world.content"
          freshWorld).2.fs.Stat "world.content" = false) ∨
      (Error.network = Error.copy ∧
        (download (serving [("en", enPath)] [] true) "https://elsewhere" "world.content"
          freshWorld).2.fs.Stat "world.content" = true)) :=
  ⟨by decide, by decide,
    download_failure_effect (serving [("en", enPath)] [] true) "https://elsewhere"
      "world.content" freshWorld Error.network (by decide) (by decide)⟩

/-- A first `Open` on an empty working directory downloads "world.content"; the second
finds it. -/
theorem Open_idempotent_witness :
    (Open (serving [("en", enPath)] [⟨some ⟨entryBytes, false⟩⟩] true) freshWorld).1
      = (some ⟨"world.content"⟩, none) ∧
    (Open (serving [("en", enPath)] [⟨some ⟨entryBytes, false⟩⟩] true)
        (Open (serving [("en", enPath)] [⟨some ⟨entryBytes, false⟩⟩] true)
          freshWorld).2).1
      = (some ⟨"world.content"⟩, none) :=
  ⟨by decide,
    (Open_idempotent (serving [("en", enPath)] [⟨some ⟨entryBytes, false⟩⟩] true)
      (serving [("en", enPath)] [⟨some ⟨entryBytes, false⟩⟩] true) freshWorld
      ⟨"world.content"⟩ rfl rfl (by decide)).2.1⟩

/-- A descriptor with no "en" entry makes `Open` return a handle on ".". -/
theorem Open_without_en_path_witness :
    (serving [("fr", enPath)] [] true).getManifest = some [("fr", enPath)] ∧
    ([("fr", enPath)] : List (String × String)).lookup "en" = none ∧
    (Open (serving [("fr", enPath)] [] true) freshWorld).1 =
      (if (serving [("fr", enPath)] [] true).sqlOpen "." = true
        then (some ⟨"."⟩, none) else (none, some Error.sqlOpen)) :=
  ⟨rfl, by decide,
    (Open_without_en_path (serving [("fr", enPath)] [] true) freshWorld [("fr", enPath)]
      rfl (Or.inl (by decide))).2.2.2.2.2⟩

end Destiny2DB
